import Mathlib

/-!
Verification of the cluster/node resource model of the cluster-status tool
(`cubi-tools/prototypes/cluster-info.py`).

The Python source is shallowly embedded below.  Python `int` is modelled by
`Int`, Python `float` arithmetic by exact rational (`ℚ`) arithmetic (Python's
`round` is banker's rounding — half to even — which is modelled exactly on
rationals), strings by `String`/`List Char`, dictionaries (which iterate in
insertion order) by association lists, and fallible code by `Except PyErr`.
-/

set_option linter.unusedVariables false
set_option linter.unusedTactic false

-- Batteries marks the `Rat` arithmetic irreducible, which blocks `decide`
-- on concrete rational computations; restore the default reducibility so
-- witnesses can be checked by evaluation.
set_option allowUnsafeReducibility true
attribute [local semireducible] Rat.add Rat.mul Rat.inv Rat.sub Rat.div

deriving instance DecidableEq for Except

namespace ClusterInfo

/-- Python exception kinds that the embedded fragments can raise. -/
inductive PyErr where
  | keyError
  | valueError
  | typeError
  | attributeError
  | assertionError
  | zeroDivisionError
deriving DecidableEq, Repr

/-- A Python value stored in a resource dictionary: branches of the source
only ever store `int` or `str` values (`norm_value` is one of the two). -/
inductive Val where
  | i : Int → Val
  | s : String → Val
deriving DecidableEq, Repr

/-- An ordered dictionary (Python `dict`/`OrderedDict`): an association list
in insertion order. -/
abbrev RecMap := List (String × Val)

/-- First binding of a key (Python `d[key]` lookup). -/
def odLookup : RecMap → String → Option Val
  | [], _ => none
  | (k₁, v) :: rest, k => if k₁ = k then some v else odLookup rest k

/-- Python `d[key] = v`: replace the value in place if the key is present,
otherwise append the new binding at the end. -/
def odSet : RecMap → String → Val → RecMap
  | [], k, v => [(k, v)]
  | (k₁, v₁) :: rest, k, v =>
      if k₁ = k then (k₁, v) :: rest else (k₁, v₁) :: odSet rest k v

/-- The keys of a record, in order. -/
def recKeys (d : RecMap) : List String := d.map Prod.fst

/-- Lookup of an `int` value (`d[key]` used in arithmetic context):
`KeyError` if absent, `TypeError` if the stored value is a string. -/
def lookInt (d : RecMap) (k : String) : Except PyErr Int :=
  match odLookup d k with
  | none => .error .keyError
  | some (.i n) => .ok n
  | some (.s _) => .error .typeError

/-! ### Character and string helpers (Python `str` methods, `re.search`) -/

/-- `[0-9]` character class. -/
def isDigitCh (c : Char) : Bool := 48 ≤ c.toNat && c.toNat ≤ 57

/-- `[mkgb]` character class (the unit regex of `_norm_mem_to_gibi`). -/
def isUnitCh (c : Char) : Bool := c = 'm' || c = 'k' || c = 'g' || c = 'b'

/-- Python `str.lower` on one character. -/
def lowerCh (c : Char) : Char :=
  if 65 ≤ c.toNat && c.toNat ≤ 90 then Char.ofNat (c.toNat + 32) else c

/-- Python whitespace stripped by `str.strip()`. -/
def isSpaceCh (c : Char) : Bool :=
  c = ' ' || c = '\t' || c = '\n' || c = '\x0d' || c = '\x0b' || c = '\x0c'

/-- Strip characters satisfying `p` from both ends (Python `str.strip`). -/
def stripBy (p : Char → Bool) (cs : List Char) : List Char :=
  ((cs.dropWhile p).reverse.dropWhile p).reverse

/-- Python `str.strip()` (whitespace). -/
def stripWs (cs : List Char) : List Char := stripBy isSpaceCh cs

/-- Python `str.strip("<>")`. -/
def stripAngle (cs : List Char) : List Char := stripBy (fun c => c = '<' || c = '>') cs

/-- Python `str.replace("-", "")`: remove every hyphen. -/
def dropHyphens (cs : List Char) : List Char := cs.filter (fun c => c ≠ '-')

/-- Python `str.split(",")`: split at every comma, keeping empty pieces. -/
def splitComma : List Char → List (List Char)
  | [] => [[]]
  | c :: cs =>
      match splitComma cs with
      | [] => [[c]]  -- unreachable: splitComma never returns []
      | h :: t => if c = ',' then [] :: h :: t else (c :: h) :: t

/-- Value of a run of decimal digits, most significant first
(Python `int(...)` applied to the digit run found by `re.search("[0-9]+")`). -/
def parseNat (cs : List Char) : Nat :=
  cs.foldl (fun a c => a * 10 + (c.toNat - 48)) 0

/-- `re.search("[c]+", s)` for a character class `p`: the first maximal run
of characters satisfying `p`, if any. -/
def findRun (p : Char → Bool) : List Char → Option (List Char)
  | [] => none
  | c :: cs => if p c then some (c :: cs.takeWhile p) else findRun p cs

/-- Python `int(str)` on an already stripped string: optional sign followed
by a nonempty digit run; anything else raises `ValueError`. -/
def pyIntOfChars (cs : List Char) : Except PyErr Int :=
  match cs with
  | '-' :: ds =>
      if ds ≠ [] && ds.all isDigitCh then .ok (-(parseNat ds : Int)) else .error .valueError
  | '+' :: ds =>
      if ds ≠ [] && ds.all isDigitCh then .ok (parseNat ds : Int) else .error .valueError
  | ds =>
      if ds ≠ [] && ds.all isDigitCh then .ok (parseNat ds : Int) else .error .valueError

/-- Python `int(x)` on an `int`-or-`str` value. -/
def pyInt : Val → Except PyErr Int
  | .i n => .ok n
  | .s str => pyIntOfChars str.data

/-! ### Python rounding (banker's rounding, modelled exactly on ℚ) -/

/-- Python `round(x)` to an integer: round half to even. -/
def pyRound (x : ℚ) : ℤ :=
  let f := ⌊x⌋
  let r := x - (f : ℚ)
  if r < 1/2 then f
  else if 1/2 < r then f + 1
  else if f % 2 = 0 then f else f + 1

/-- Python `round(x, 1)`. -/
def roundTo1 (x : ℚ) : ℚ := (pyRound (x * 10) : ℚ) / 10

/-- Python `round(x, 2)`. -/
def roundTo2 (x : ℚ) : ℚ := (pyRound (x * 100) : ℚ) / 100

/-! ### MemoryUnit (the `MemoryUnit` enum): unit name → power-of-1024 exponent -/

/-- `MemoryUnit[name].value`: the enum table of the source, as a partial map
from unit-token names to the power of 1024 dividing the value down to GiB. -/
def memUnitLookup (cs : List Char) : Option Nat :=
  if cs = "byte".data then some 3
  else if cs = "b".data then some 3
  else if cs = "kilobyte".data then some 2
  else if cs = "kilo".data then some 2
  else if cs = "kibi".data then some 2
  else if cs = "kib".data then some 2
  else if cs = "kb".data then some 2
  else if cs = "k".data then some 2
  else if cs = "megabyte".data then some 1
  else if cs = "mega".data then some 1
  else if cs = "mebi".data then some 1
  else if cs = "mb".data then some 1
  else if cs = "m".data then some 1
  else if cs = "gigabyte".data then some 0
  else if cs = "giga".data then some 0
  else if cs = "gibi".data then some 0
  else if cs = "gib".data then some 0
  else if cs = "gb".data then some 0
  else if cs = "g".data then some 0
  else none

/-! ### Unit Normalizer (`ClusterNode._norm_mem_to_gibi`) -/

/-- The parsing core of `_norm_mem_to_gibi`: extract the first digit run and
the first `[mkgb]` run of the lowercased text, returning the integer value
and the power-of-1024 exponent (`ValueError` when no digits are present,
`KeyError` when the unit run is not a `MemoryUnit` name; a missing unit run
means byte scale, exponent 3). -/
def parseMemExpr (memory : List Char) : Except PyErr (Nat × Nat) := do
  let memValue := findRun isDigitCh memory
  let memUnit := findRun isUnitCh (memory.map lowerCh)
  match memValue with
  | none => .error .valueError
  | some ds =>
      let v := parseNat ds
      match memUnit with
      | none => .ok (v, 3)
      | some us =>
          match memUnitLookup us with
          | none => .error .keyError
          | some power => .ok (v, power)

/-- `_norm_mem_to_gibi(memory, blunt)`: the value in gibibytes, rounded to
the nearest integer (`blunt`, via `int(round(x, 0))`) or to two decimal
places. -/
def normMemToGibi (memory : List Char) (blunt : Bool) : Except PyErr ℚ := do
  let (v, power) ← parseMemExpr memory
  let memGibi : ℚ := (v : ℚ) / 1024 ^ power
  if blunt then .ok ((pyRound memGibi : ℤ) : ℚ) else .ok (roundTo2 memGibi)

/-- `_norm_mem_to_gibi` in blunt mode as the resource parser consumes it:
an integer number of GiB. -/
def normMemBluntInt (memory : List Char) : Except PyErr Int := do
  let (v, power) ← parseMemExpr memory
  .ok (pyRound ((v : ℚ) / 1024 ^ power))

/-! ### NodeState (the `NodeState` enum) and the State Classifier -/

/-- The `NodeState` enum.  In the source, `unknown`, `down` and
`stateunknown` are declared with value 1 and are therefore aliases of
`offline`; `free`, `jobbusy` and `various` are declared with value 0 and are
aliases of `online`.  The canonical members are the three below; alias names
are resolved by `stateLookup`. -/
inductive NodeState where
  | online
  | offline
  | invalid
deriving DecidableEq, Repr

/-- `NodeState.value`. -/
def NodeState.value : NodeState → Nat
  | .online => 0
  | .offline => 1
  | .invalid => 2

/-- `NodeState[name]`: name lookup including alias names; unknown names are
a `KeyError` (`none`). -/
def stateLookup (cs : List Char) : Option NodeState :=
  if cs = "offline".data then some .offline
  else if cs = "unknown".data then some .offline
  else if cs = "down".data then some .offline
  else if cs = "stateunknown".data then some .offline
  else if cs = "invalid".data then some .invalid
  else if cs = "online".data then some .online
  else if cs = "free".data then some .online
  else if cs = "jobbusy".data then some .online
  else if cs = "various".data then some .online
  else none

/-- The comparison `node_state == "<various>"` of `_parse_state`, line 381:
Python `==` between an enum member and a `str` is always `False` (no enum
compares equal to a string), so this models that comparison exactly. -/
def stateEqStr (_ : NodeState) (_ : String) : Bool := false

/-- `ClusterNode._parse_state(state_expr)`: split the raw state expression
on commas, drop hyphens, strip whitespace and angle brackets, look every
token up in `NodeState`, and reduce the distinct categories to one state.
The returned flag records whether a diagnostic was written to stderr. -/
def parseState (stateExpr : String) : Except PyErr (NodeState × Bool) := do
  let allStates := (splitComma stateExpr.data).map dropHyphens
  let looked ← allStates.mapM (fun s =>
    match stateLookup (stripAngle (stripWs s)) with
    | none => Except.error PyErr.keyError
    | some st => Except.ok st)
  let distinct := looked.dedup
  match distinct with
  | [st] =>
      -- line 381: `if node_state == "<various>":` — dead branch, the
      -- comparison of an enum member with a string is always False
      if stateEqStr st "<various>" then
        .ok (.online, true)
      else
        .ok (st, false)
  | _ => .ok (.invalid, true)

/-! ### Sorting of `(key, value)` pairs (`sorted(machine_resources)`) -/

/-- Lexicographic order on character lists by code point (Python `str`
comparison). -/
def listLe : List Char → List Char → Bool
  | [], _ => true
  | _ :: _, [] => false
  | a :: as, b :: bs =>
      if a.toNat < b.toNat then true
      else if b.toNat < a.toNat then false
      else listLe as bs

/-- Order on stored values used to break ties between pairs with equal keys
(Python compares the second tuple components; both are strings in every
reachable duplicate-key case — duplicate keys arise only for `gpu_model`.
Python raises `TypeError` on an `int`/`str` comparison; that unreachable
mixed case is totalised here by putting ints first). -/
def valLe : Val → Val → Bool
  | .i a, .i b => a ≤ b
  | .i _, .s _ => true
  | .s _, .i _ => false
  | .s a, .s b => listLe a.data b.data

/-- Python tuple comparison `(k1, v1) <= (k2, v2)`. -/
def pairLe (a b : String × Val) : Bool :=
  if a.1.data = b.1.data then valLe a.2 b.2 else listLe a.1.data b.1.data

/-- `sorted(...)` on the accumulated resource pairs. -/
def sortPairs (l : List (String × Val)) : List (String × Val) :=
  List.insertionSort (fun a b => pairLe a b = true) l

/-- `collections.OrderedDict(pairs)`: fold the pairs into a record; a later
binding of an existing key overwrites the value in place. -/
def odOfPairs (l : List (String × Val)) : RecMap :=
  l.foldl (fun d kv => odSet d kv.1 kv.2) []

/-! ### Resource Parser (`ClusterNode._parse_resource_info`) -/

/-- The attributes that `_parse_resource_info` sets on the node as a side
effect while building the record (`self.type`, `self.workloads`,
`self.queue_list`). -/
structure SideState where
  type : Option String
  workloads : Option String
  queueList : Option (List String)
deriving DecidableEq, Repr

/-- Python `value.strip().lower()` with the `AttributeError` fallback for
ints (lines 391-397; the `ValueError` branch for other types is unreachable
here because raw values are ints or strings). -/
def normRawValue : Val → Val
  | .s str => .s (String.mk ((stripWs str.data).map lowerCh))
  | .i n => .i n

/-- Python `str.split(",")` producing strings. -/
def splitCommaStr (s : String) : List String :=
  (splitComma s.data).map String.mk

/-- One iteration of the key dispatch of `_parse_resource_info`
(lines 390-429): returns the pairs appended to `machine_resources` and the
updated side state. -/
def parseOneResource (selfId : String) (correctSmt : Bool) (st : SideState)
    (rsrcKey : String) (rsrcValue : Val) :
    Except PyErr (List (String × Val) × SideState) := do
  let normValue := normRawValue rsrcValue
  let (acc, st) : List (String × Val) × SideState :=
    if rsrcKey = "accelerator_model" || rsrcKey = "gpu_id" then
      -- line 399 compares the raw value with "none", not the normalized one
      if rsrcValue = .s "none" then
        ([("gpu_model", .s "igpu")],
         { st with workloads := some "cpu", type := some "cpu" })
      else
        ([("gpu_model", normValue)],
         { st with workloads := some "gpu", type := some "gpu" })
    else ([], st)
  let acc :=
    if rsrcKey = "arch" then
      if normValue ≠ .s "linux" then acc ++ [("cpu_microarchitecture", normValue)]
      else acc ++ [("cpu_microarchitecture", .s "unknown")]
    else acc
  if rsrcKey = "host" then
    if normValue ≠ .s selfId then
      throw .assertionError
  let acc ←
    if rsrcKey = "ncpus" then do
      let n ← pyInt normValue
      -- `int(norm_value) // 2`: Python floor division
      let cpuCores := if correctSmt then Int.fdiv n 2 else n
      pure (acc ++ [("cpu_cores", .i cpuCores)])
    else pure acc
  let acc ←
    if rsrcKey = "ngpus" then do
      let n ← pyInt normValue
      pure (acc ++ [("gpu_boards", .i n)])
    else pure acc
  let acc ←
    if rsrcKey = "mem" then
      match normValue with
      | .s str => do
          let m ← normMemBluntInt str.data
          pure (acc ++ [("memory_gb", .i m)])
      | .i _ => throw .typeError  -- re.search on an int raises TypeError
    else pure acc
  let st ←
    if rsrcKey = "Qlist" || rsrcKey = "qlist" then
      match normValue with
      | .s str => pure { st with queueList := some (splitCommaStr str) }
      | .i _ => throw .attributeError  -- int has no .split
    else pure st
  return (acc, st)

/-- The item loop of `_parse_resource_info`, accumulating
`machine_resources` in iteration order. -/
def parseResourceItems (selfId : String) (correctSmt : Bool) :
    SideState → List (String × Val) →
    Except PyErr (List (String × Val) × SideState)
  | st, [] => .ok ([], st)
  | st, (k, v) :: rest => do
      let (acc, st₁) ← parseOneResource selfId correctSmt st k v
      let (accRest, st₂) ← parseResourceItems selfId correctSmt st₁ rest
      .ok (acc ++ accRest, st₂)

/-- The three numeric keys guaranteed for the machine record
(`minimal_rsrc_set`, also `consider_keys` of `_estimate_node_load`). -/
def considerKeys : List String := ["cpu_cores", "gpu_boards", "memory_gb"]

/-- `ClusterNode._parse_resource_info(resource_info, assert_minimal_set,
correct_smt)`: dispatch every raw item, sort the collected pairs, build the
ordered record, and (for the machine set only) default the three numeric
keys to 0 when absent. -/
def parseResourceInfo (selfId : String) (st : SideState)
    (resourceInfo : List (String × Val)) (assertMinimalSet : Bool)
    (correctSmt : Bool) : Except PyErr (RecMap × SideState) := do
  let (pairs, st₁) ← parseResourceItems selfId correctSmt st resourceInfo
  let machineResources := odOfPairs (sortPairs pairs)
  let machineResources :=
    if assertMinimalSet then
      considerKeys.foldl (fun d k =>
        match odLookup d k with
        | some _ => d
        | none => odSet d k (.i 0)) machineResources
    else machineResources
  .ok (machineResources, st₁)

/-! ### Load estimation (`ClusterNode._estimate_node_load`) -/

/-- An `int` value used in Python arithmetic (`-`, `/`): a stored string
raises `TypeError` there. -/
def asInt : Val → Except PyErr Int
  | .i n => .ok n
  | .s _ => .error .typeError

/-- The item loop of `_estimate_node_load` (lines 450-464): walk the machine
record, back-fill missing used entries with 0, record the remaining
resources `max(0, machine - used)`, assert `workloads == "cpu"` on a
zero-capacity dimension, and collect the utilization ratios of the nonzero
dimensions. -/
def estimateLoop (workloads : String) :
    List (String × Val) → RecMap → RecMap → List ℚ →
    Except PyErr (RecMap × RecMap × List ℚ)
  | [], remain, used, loads => .ok (remain, used, loads)
  | (k, v) :: rest, remain, used, loads =>
      if k ∈ considerKeys then do
        let (rsrcUsed, used₁) :=
          match odLookup used k with
          | some u => (u, used)
          | none => (Val.i 0, odSet used k (.i 0))
        let vm ← asInt v
        let vu ← asInt rsrcUsed
        let remain₁ := odSet remain k (.i (max 0 (vm - vu)))
        if vm = 0 then
          -- NB: CPU servers have no GPU boards
          if workloads = "cpu" then
            estimateLoop workloads rest remain₁ used₁ loads
          else
            .error .assertionError
        else
          estimateLoop workloads rest remain₁ used₁ (loads ++ [(vu : ℚ) / (vm : ℚ)])
      else
        estimateLoop workloads rest remain used loads

/-- `ClusterNode._estimate_node_load`: the remaining-resource record, the
(mutated) used record, and the load estimate
`round(sum(load_values) / len(load_values), 2)` — a `ZeroDivisionError`
when no dimension had nonzero capacity. -/
def estimateNodeLoad (workloads : String) (machine used : RecMap) :
    Except PyErr (RecMap × RecMap × ℚ) := do
  let (remain, used₁, loads) ← estimateLoop workloads machine [] used []
  if loads.length = 0 then
    .error .zeroDivisionError
  else
    .ok (remain, used₁, roundTo2 (loads.sum / (loads.length : ℚ)))

/-! ### Node Model (`ClusterNode`) -/

/-- A raw inventory record for one node (the value of one entry of the
`nodes` mapping of the input JSON document).  The timestamp fields and the
scheduler type tag are consumed verbatim and are irrelevant to every claim;
the wall-clock fallback of `convert_ts` is I/O and is not modelled. -/
structure RawNode where
  state : String
  ntype : Option String
  jobs : List String
  resources_available : List (String × Val)
  resources_assigned : List (String × Val)
deriving DecidableEq, Repr

/-- A constructed `ClusterNode` (the attributes the claims touch). -/
structure Node where
  id : String
  scheduler : String
  state : NodeState
  type : String
  workloads : String
  queue_list : Option (List String)
  job_list : List String
  rsrc_machine : RecMap
  rsrc_used : RecMap
  rsrc_remain : RecMap
  load_estimate : ℚ
deriving DecidableEq, Repr

/-- Lines 299-301: `if self.type is None: self.type = "cpu";
self.workloads = "cpu"` — the parser always sets `type` and `workloads`
together, so the paired resolution below is the same assignment. -/
def resolveType (st : SideState) : String × String :=
  match st.type, st.workloads with
  | some t, some w => (t, w)
  | _, _ => ("cpu", "cpu")

/-- `ClusterNode.__init__(node_name, node_infos, correct_smt)`.  Note
line 297: the used/assigned parse passes `correct_smt` as the second
positional argument of `_parse_resource_info`, i.e. as
`assert_minimal_set`, leaving `correct_smt=False` there. -/
def constructNode (nodeName : String) (infos : RawNode) (correctSmt : Bool) :
    Except PyErr Node := do
  let (state, _warned) ← parseState infos.state
  let stStart : SideState := ⟨none, none, none⟩
  let (machine, st₁) ←
    parseResourceInfo nodeName stStart infos.resources_available true correctSmt
  let (used, st₂) ←
    parseResourceInfo nodeName st₁ infos.resources_assigned correctSmt false
  let (ty, wl) := resolveType st₂
  let (remain, used₁, load) ← estimateNodeLoad wl machine used
  .ok {
    id := nodeName
    scheduler := infos.ntype.getD "unknown"
    state := state
    type := ty
    workloads := wl
    queue_list := st₂.queueList
    job_list := List.insertionSort (fun a b => listLe a.data b.data = true) infos.jobs
    rsrc_machine := machine
    rsrc_used := used₁
    rsrc_remain := remain
    load_estimate := load
  }

/-- `ClusterNode.__eq__`: equality of the three machine capacities. -/
def nodeEq (a b : Node) : Except PyErr Bool := do
  let sameCpu := (← lookInt a.rsrc_machine "cpu_cores") = (← lookInt b.rsrc_machine "cpu_cores")
  let sameMem := (← lookInt a.rsrc_machine "memory_gb") = (← lookInt b.rsrc_machine "memory_gb")
  let sameGpu := (← lookInt a.rsrc_machine "gpu_boards") = (← lookInt b.rsrc_machine "gpu_boards")
  .ok (sameCpu && sameMem && sameGpu)

/-- `ClusterNode.__lt__`: `less_cpu or less_mem and less_equal_gpu`
(Python precedence: `or (less_cpu, and (less_mem, less_equal_gpu))`). -/
def nodeLt (a b : Node) : Except PyErr Bool := do
  let lessCpu := (← lookInt a.rsrc_machine "cpu_cores") < (← lookInt b.rsrc_machine "cpu_cores")
  let lessMem := (← lookInt a.rsrc_machine "memory_gb") < (← lookInt b.rsrc_machine "memory_gb")
  let lessEqualGpu := (← lookInt a.rsrc_machine "gpu_boards") ≤ (← lookInt b.rsrc_machine "gpu_boards")
  .ok (lessCpu || (lessMem && lessEqualGpu))

/-- `ClusterNode.__gt__`: the mirror image of `__lt__`. -/
def nodeGt (a b : Node) : Except PyErr Bool := do
  let moreCpu := (← lookInt a.rsrc_machine "cpu_cores") > (← lookInt b.rsrc_machine "cpu_cores")
  let moreMem := (← lookInt a.rsrc_machine "memory_gb") > (← lookInt b.rsrc_machine "memory_gb")
  let moreEqualGpu := (← lookInt a.rsrc_machine "gpu_boards") ≥ (← lookInt b.rsrc_machine "gpu_boards")
  .ok (moreCpu || (moreMem && moreEqualGpu))

/-- `ClusterNode._get_free(priority)` (lines 478-496).  The conditional
`free_rsrc = -1,-1,-1` for starved nodes (line 487) is bound first and then
unconditionally overwritten by the priority dispatch (lines 489-494),
exactly as in the source. -/
def getFree (node : Node) (priority : String) : Except PyErr (Int × Int × Int) := do
  if ¬(priority = "cpu" ∨ priority = "gpu" ∨ priority = "mem") then
    throw .assertionError
  let freeCpu ← lookInt node.rsrc_remain "cpu_cores"
  let freeGpu ← lookInt node.rsrc_remain "gpu_boards"
  let freeMem ← lookInt node.rsrc_remain "memory_gb"
  -- line 486-487: assignment that the following dispatch overwrites
  let free_rsrc : Option (Int × Int × Int) :=
    if freeCpu < 1 ∨ freeMem < 2 then some (-1, -1, -1) else none
  let free_rsrc :=
    if priority = "cpu" then (freeCpu, freeMem, freeGpu)
    else if priority = "gpu" then (freeGpu, freeMem, freeCpu)
    else (freeMem, freeCpu, freeGpu)
  .ok free_rsrc

/-! ### Cluster summary (`PBSCluster.__repr__`, `Infrastructure.percent`) -/

/-- `Infrastructure.percent(enumerator, denominator)`:
`round(enumerator / denominator * 100, 1)`; a zero denominator raises
`ZeroDivisionError`. -/
def percent (enumerator denominator : ℚ) : Except PyErr ℚ :=
  if denominator = 0 then .error .zeroDivisionError
  else .ok (roundTo1 (enumerator / denominator * 100))

/-- The numbers interpolated into the cluster status text of
`PBSCluster.__repr__`. -/
structure ClusterSummary where
  totalNodes : Nat
  cpuNodes : Nat
  gpuNodes : Nat
  onlineNodes : Nat
  onlineCpuNodes : Nat
  onlineGpuNodes : Nat
  totalMemory : Int
  onlineMemory : Int
  totalCpu : Int
  onlineCpuCores : Int
  totalGpu : Int
  onlineGpuBoards : Int
  pctOnlineNodes : ℚ
  pctOnlineCpuNodes : ℚ
  pctOnlineGpuNodes : ℚ
  pctOnlineCpuCores : ℚ
  pctOnlineMemory : ℚ
  pctOnlineGpuBoards : ℚ
deriving DecidableEq, Repr

/-- Sum of one machine-record dimension over a node list (the
`sum(node.rsrc_machine[key] for node in ...)` generators). -/
def sumMachine (nodes : List Node) (key : String) : Except PyErr Int :=
  nodes.foldlM (fun acc node => do
    let v ← lookInt node.rsrc_machine key
    pure (acc + v)) 0

/-- `PBSCluster.__repr__` (lines 103-135), restricted to the numbers it
computes and interpolates.  Line 127 computes the GPU-node percentage as
`percent(online_gpu_nodes, online_gpu_nodes)`, exactly as in the source. -/
def clusterSummary (nodes : List Node) : Except PyErr ClusterSummary := do
  let onlineList := nodes.filter (fun node => node.state.value = 0)
  let totalNodes := nodes.length
  let cpuNodes := (nodes.filter (fun node => node.type = "cpu")).length
  let gpuNodes := (nodes.filter (fun node => node.type = "gpu")).length
  let onlineNodes := onlineList.length
  let onlineCpuNodes := (onlineList.filter (fun node => node.type = "cpu")).length
  let onlineGpuNodes := (onlineList.filter (fun node => node.type = "gpu")).length
  let totalMemory ← sumMachine nodes "memory_gb"
  let onlineMemory ← sumMachine onlineList "memory_gb"
  let totalCpu ← sumMachine nodes "cpu_cores"
  let onlineCpuCores ← sumMachine onlineList "cpu_cores"
  let totalGpu ← sumMachine nodes "gpu_boards"
  let onlineGpuBoards ← sumMachine onlineList "gpu_boards"
  let pctOnlineNodes ← percent (onlineNodes : ℚ) (totalNodes : ℚ)
  let pctOnlineCpuNodes ← percent (onlineCpuNodes : ℚ) (cpuNodes : ℚ)
  let pctOnlineGpuNodes ← percent (onlineGpuNodes : ℚ) (onlineGpuNodes : ℚ)
  let pctOnlineCpuCores ← percent (onlineCpuCores : ℚ) (totalCpu : ℚ)
  let pctOnlineMemory ← percent (onlineMemory : ℚ) (totalMemory : ℚ)
  let pctOnlineGpuBoards ← percent (onlineGpuBoards : ℚ) (totalGpu : ℚ)
  .ok {
    totalNodes, cpuNodes, gpuNodes, onlineNodes, onlineCpuNodes,
    onlineGpuNodes, totalMemory, onlineMemory, totalCpu, onlineCpuCores,
    totalGpu, onlineGpuBoards, pctOnlineNodes, pctOnlineCpuNodes,
    pctOnlineGpuNodes, pctOnlineCpuCores, pctOnlineMemory,
    pctOnlineGpuBoards
  }

/-! ### Decimal representation (for quantifying over `f-string` inputs) -/

/-- The character of a decimal digit. -/
def digitOfNat (d : Nat) : Char := Char.ofNat (48 + d)

/-- Digits of `n`, most significant first; structural recursion on fuel. -/
def toDigitsAux : Nat → Nat → List Char
  | 0, _ => []
  | fuel + 1, n =>
      if n < 10 then [digitOfNat n]
      else toDigitsAux fuel (n / 10) ++ [digitOfNat (n % 10)]

/-- Python `str(V)` for a non-negative integer `V`. -/
def decimalRepr (n : Nat) : List Char := toDigitsAux (n + 1) n

/-- Every name of the `MemoryUnit` enum: the recognized unit vocabulary. -/
def unitTokens : List String :=
  ["byte", "b", "kilobyte", "kilo", "kibi", "kib", "kb", "k",
   "megabyte", "mega", "mebi", "mb", "m",
   "gigabyte", "giga", "gibi", "gib", "gb", "g"]

/-- `MemoryUnit[token].value` for a whole token: the exponent the claim's
`V / 1024 ** exponent(unit)` refers to (0 outside the vocabulary). -/
def tokenExponent (u : String) : Nat := (memUnitLookup u.data).getD 0

/-- The record's keys are in lexicographic (code point) order. -/
def lexSorted (d : RecMap) : Prop :=
  List.Sorted (fun a b => listLe a.data b.data = true) (recKeys d)

instance (d : RecMap) : Decidable (lexSorted d) := by
  unfold lexSorted; infer_instance

/-! ### Concrete inventory records and the nodes they construct -/

/-- Side state before any resource parsing: `self.type`, `self.workloads`
and `self.queue_list` unset. -/
def st₀ : SideState := ⟨none, none, none⟩

/-- A node whose only free core is assigned: remaining cores `0 < 1`, the
starved case of the free-triple rule. -/
def rawStarved : RawNode :=
  ⟨"free", none, [], [("ncpus", .s "1"), ("mem", .s "4gb")], [("ncpus", .s "1")]⟩

def nodeStarved : Node := {
  id := "n01", scheduler := "unknown", state := .online,
  type := "cpu", workloads := "cpu", queue_list := none, job_list := [],
  rsrc_machine := [("cpu_cores", .i 1), ("memory_gb", .i 4), ("gpu_boards", .i 0)],
  rsrc_used := [("cpu_cores", .i 1), ("memory_gb", .i 0), ("gpu_boards", .i 0)],
  rsrc_remain := [("cpu_cores", .i 0), ("memory_gb", .i 4), ("gpu_boards", .i 0)],
  load_estimate := 1/2 }

/-- A node reporting two GPU boards but no accelerator descriptor. -/
def rawGpuNoAccel : RawNode :=
  ⟨"free", none, [], [("ncpus", .s "4"), ("mem", .s "8gb"), ("ngpus", .s "2")], []⟩

def nodeGpuNoAccel : Node := {
  id := "n1", scheduler := "unknown", state := .online,
  type := "cpu", workloads := "cpu", queue_list := none, job_list := [],
  rsrc_machine := [("cpu_cores", .i 4), ("gpu_boards", .i 2), ("memory_gb", .i 8)],
  rsrc_used := [("cpu_cores", .i 0), ("gpu_boards", .i 0), ("memory_gb", .i 0)],
  rsrc_remain := [("cpu_cores", .i 4), ("gpu_boards", .i 2), ("memory_gb", .i 8)],
  load_estimate := 0 }

/-- A node with 16 assigned cores on a 4-core machine. -/
def rawOverassigned : RawNode :=
  ⟨"free", none, [], [("ncpus", .s "4"), ("mem", .s "8gb")], [("ncpus", .s "16")]⟩

def nodeOverassigned : Node := {
  id := "over01", scheduler := "unknown", state := .online,
  type := "cpu", workloads := "cpu", queue_list := none, job_list := [],
  rsrc_machine := [("cpu_cores", .i 4), ("memory_gb", .i 8), ("gpu_boards", .i 0)],
  rsrc_used := [("cpu_cores", .i 16), ("memory_gb", .i 0), ("gpu_boards", .i 0)],
  rsrc_remain := [("cpu_cores", .i 0), ("memory_gb", .i 8), ("gpu_boards", .i 0)],
  load_estimate := 2 }

/-- An online CPU node: 4 cores, 8 GiB, no boards. -/
def rawCpuOnline : RawNode :=
  ⟨"free", none, [], [("ncpus", .s "4"), ("mem", .s "8gb")], []⟩

def nodeCpuOnline : Node := {
  id := "cpu01", scheduler := "unknown", state := .online,
  type := "cpu", workloads := "cpu", queue_list := none, job_list := [],
  rsrc_machine := [("cpu_cores", .i 4), ("memory_gb", .i 8), ("gpu_boards", .i 0)],
  rsrc_used := [("cpu_cores", .i 0), ("memory_gb", .i 0), ("gpu_boards", .i 0)],
  rsrc_remain := [("cpu_cores", .i 4), ("memory_gb", .i 8), ("gpu_boards", .i 0)],
  load_estimate := 0 }

/-- An online GPU node: 4 cores, 8 GiB, 1 board, model `a100`. -/
def rawGpuOnline : RawNode :=
  ⟨"free", none, [],
   [("ncpus", .s "4"), ("mem", .s "8gb"), ("ngpus", .s "1"),
    ("accelerator_model", .s "a100")], []⟩

/-- The same machine, reported `down` (offline). -/
def rawGpuOffline : RawNode :=
  ⟨"down", none, [],
   [("ncpus", .s "4"), ("mem", .s "8gb"), ("ngpus", .s "1"),
    ("accelerator_model", .s "a100")], []⟩

def nodeGpuOnline : Node := {
  id := "gpu01", scheduler := "unknown", state := .online,
  type := "gpu", workloads := "gpu", queue_list := none, job_list := [],
  rsrc_machine := [("cpu_cores", .i 4), ("gpu_boards", .i 1),
                   ("gpu_model", .s "a100"), ("memory_gb", .i 8)],
  rsrc_used := [("cpu_cores", .i 0), ("gpu_boards", .i 0), ("memory_gb", .i 0)],
  rsrc_remain := [("cpu_cores", .i 4), ("gpu_boards", .i 1), ("memory_gb", .i 8)],
  load_estimate := 0 }

def nodeGpuOffline : Node := { nodeGpuOnline with id := "gpu02", state := .offline }

/-- Machine capacities 2 cores / 1 GiB / 0 boards. -/
def rawSize21 : RawNode :=
  ⟨"free", none, [], [("ncpus", .s "2"), ("mem", .s "1gb")], []⟩

def nodeSize21 : Node := {
  id := "size1", scheduler := "unknown", state := .online,
  type := "cpu", workloads := "cpu", queue_list := none, job_list := [],
  rsrc_machine := [("cpu_cores", .i 2), ("memory_gb", .i 1), ("gpu_boards", .i 0)],
  rsrc_used := [("cpu_cores", .i 0), ("memory_gb", .i 0), ("gpu_boards", .i 0)],
  rsrc_remain := [("cpu_cores", .i 2), ("memory_gb", .i 1), ("gpu_boards", .i 0)],
  load_estimate := 0 }

/-- Machine capacities 1 core / 2 GiB / 0 boards. -/
def rawSize12 : RawNode :=
  ⟨"free", none, [], [("ncpus", .s "1"), ("mem", .s "2gb")], []⟩

def nodeSize12 : Node := {
  id := "size2", scheduler := "unknown", state := .online,
  type := "cpu", workloads := "cpu", queue_list := none, job_list := [],
  rsrc_machine := [("cpu_cores", .i 1), ("memory_gb", .i 2), ("gpu_boards", .i 0)],
  rsrc_used := [("cpu_cores", .i 0), ("memory_gb", .i 0), ("gpu_boards", .i 0)],
  rsrc_remain := [("cpu_cores", .i 1), ("memory_gb", .i 2), ("gpu_boards", .i 0)],
  load_estimate := 0 }

/-- An inventory record with an empty `resources_available` map: every
machine dimension defaults to 0. -/
def rawEmptyResources : RawNode := ⟨"free", none, [], [], []⟩

/-- The summary numbers of the three-node cluster
`[nodeCpuOnline, nodeGpuOnline, nodeGpuOffline]`. -/
def summaryThreeNodes : ClusterSummary := {
  totalNodes := 3, cpuNodes := 1, gpuNodes := 2,
  onlineNodes := 2, onlineCpuNodes := 1, onlineGpuNodes := 1,
  totalMemory := 24, onlineMemory := 16,
  totalCpu := 12, onlineCpuCores := 8,
  totalGpu := 2, onlineGpuBoards := 1,
  pctOnlineNodes := 667/10, pctOnlineCpuNodes := 100,
  pctOnlineGpuNodes := 100, pctOnlineCpuCores := 667/10,
  pctOnlineMemory := 667/10, pctOnlineGpuBoards := 50 }

/-- A record has no duplicate keys. -/
def nodupKeys (d : RecMap) : Prop := (recKeys d).Nodup

/-- `self.type` and `self.workloads` are always assigned together. -/
def typeWlPaired (st : SideState) : Prop := st.type = st.workloads

end ClusterInfo

namespace ClusterInfo

/-! ## Supporting lemmas -/

theorem bindOk {α β : Type} {x : Except PyErr α} {f : α → Except PyErr β} {b : β}
    (h : (x >>= f) = .ok b) : ∃ a, x = .ok a ∧ f a = .ok b := by
  cases x with
  | error e => simp [Bind.bind, Except.bind] at h
  | ok a => exact ⟨a, rfl, by simpa [Bind.bind, Except.bind] using h⟩

theorem throw_eq (e : PyErr) (α : Type) : (throw e : Except PyErr α) = .error e := rfl

theorem pure_eq {α : Type} (a : α) : (pure a : Except PyErr α) = .ok a := rfl

theorem ok_bind {α β : Type} (a : α) (f : α → Except PyErr β) :
    (Except.ok a : Except PyErr α) >>= f = f a := rfl

theorem error_bind {α β : Type} (e : PyErr) (f : α → Except PyErr β) :
    (Except.error e : Except PyErr α) >>= f = .error e := rfl

set_option maxHeartbeats 3200000 in

theorem recKeys_cons (hd : String × Val) (tl : RecMap) :
    recKeys (hd :: tl) = hd.1 :: recKeys tl := rfl

theorem odSet_recKeys_mem {d : RecMap} {k : String} (hk : k ∈ recKeys d) (v : Val) :
    recKeys (odSet d k v) = recKeys d := by
  induction d with
  | nil => simp [recKeys] at hk
  | cons hd tl ih =>
      rcases hd with ⟨k₁, v₁⟩
      by_cases hh : k₁ = k
      · simp [odSet, hh, recKeys]
      · rw [recKeys_cons] at hk
        rcases List.mem_cons.mp hk with heq | htl
        · exact absurd heq.symm hh
        · simp only [odSet, if_neg hh]
          rw [recKeys_cons, recKeys_cons, ih htl]

theorem odSet_recKeys_new {d : RecMap} {k : String} (hk : k ∉ recKeys d) (v : Val) :
    recKeys (odSet d k v) = recKeys d ++ [k] := by
  induction d with
  | nil => rfl
  | cons hd tl ih =>
      rcases hd with ⟨k₁, v₁⟩
      rw [recKeys_cons] at hk
      have h₁ : k₁ ≠ k := fun hc => hk (hc ▸ List.mem_cons_self k₁ _)
      have h₂ : k ∉ recKeys tl := fun hc => hk (List.mem_cons_of_mem _ hc)
      simp only [odSet, if_neg h₁]
      rw [recKeys_cons, recKeys_cons, ih h₂]
      rfl

theorem odSet_nodupKeys {d : RecMap} (h : nodupKeys d) (k : String) (v : Val) :
    nodupKeys (odSet d k v) := by
  by_cases hk : k ∈ recKeys d
  · unfold nodupKeys; rw [odSet_recKeys_mem hk]; exact h
  · unfold nodupKeys; rw [odSet_recKeys_new hk]
    simpa [List.nodup_append] using ⟨h, hk⟩

theorem foldl_odSet_nodupKeys (l : List (String × Val)) {d : RecMap} (h : nodupKeys d) :
    nodupKeys (l.foldl (fun d kv => odSet d kv.1 kv.2) d) := by
  induction l generalizing d with
  | nil => exact h
  | cons hd tl ih => exact ih (odSet_nodupKeys h hd.1 hd.2)

theorem odLookup_eq_of_mem {d : RecMap} (h : nodupKeys d) {k : String} {v : Val}
    (hm : (k, v) ∈ d) : odLookup d k = some v := by
  induction d with
  | nil => simp at hm
  | cons hd tl ih =>
      rcases hd with ⟨k₁, v₁⟩
      rw [nodupKeys, recKeys_cons, List.nodup_cons] at h
      rcases List.mem_cons.mp hm with heq | htl
      · obtain ⟨hk, hv⟩ := Prod.mk.injEq .. |>.mp heq
        subst hk; subst hv
        simp [odLookup]
      · have hk : k₁ ≠ k := by
          intro hc
          subst hc
          exact absurd (List.mem_map_of_mem Prod.fst htl) h.1
        simp only [odLookup, if_neg hk]
        exact ih h.2 htl

theorem odLookup_mem {d : RecMap} {k : String} {v : Val}
    (h : odLookup d k = some v) : (k, v) ∈ d := by
  induction d with
  | nil => simp [odLookup] at h
  | cons hd tl ih =>
      rcases hd with ⟨k₁, v₁⟩
      by_cases h₁ : k₁ = k
      · subst h₁
        simp only [odLookup, reduceIte, Option.some.injEq] at h
        rw [← h]
        exact List.mem_cons_self _ _
      · simp only [odLookup, if_neg h₁] at h
        exact List.mem_cons_of_mem _ (ih h)

theorem considerDefaults_nodupKeys (ks : List String) {d : RecMap} (h : nodupKeys d) :
    nodupKeys (ks.foldl (fun d k =>
      match odLookup d k with
      | some _ => d
      | none => odSet d k (.i 0)) d) := by
  induction ks generalizing d with
  | nil => exact h
  | cons k ks ih =>
      simp only [List.foldl_cons]
      cases hl : odLookup d k with
      | some v => simp only [hl]; exact ih h
      | none => simp only [hl]; exact ih (odSet_nodupKeys h k (.i 0))

theorem parseResourceInfo_ok_nodup {selfId : String} {st : SideState}
    {info : List (String × Val)} {amin smt : Bool} {rec : RecMap} {st₁ : SideState}
    (h : parseResourceInfo selfId st info amin smt = .ok (rec, st₁)) :
    nodupKeys rec := by
  unfold parseResourceInfo at h
  rcases bindOk h with ⟨⟨pairs, stp⟩, hitems, h⟩
  simp only [Except.ok.injEq, Prod.mk.injEq] at h
  have hbase : nodupKeys (odOfPairs (sortPairs pairs)) :=
    foldl_odSet_nodupKeys _ (by simp [nodupKeys, recKeys])
  by_cases ha : amin
  · rw [if_pos ha] at h
    rw [← h.1]
    exact considerDefaults_nodupKeys _ hbase
  · rw [if_neg ha] at h
    rw [← h.1]
    exact hbase

theorem odLookup_odSet_preserve {d : RecMap} {k₀ : String} (h₀ : odLookup d k₀ = none)
    (x : Val) {k : String} {v : Val} (h : odLookup d k = some v) :
    odLookup (odSet d k₀ x) k = some v := by
  induction d with
  | nil => simp [odLookup] at h
  | cons hd tl ih =>
      rcases hd with ⟨k₁, v₁⟩
      by_cases h₁ : k₁ = k₀
      · subst h₁
        simp [odLookup] at h₀
      · simp only [odSet, if_neg h₁]
        by_cases h₂ : k₁ = k
        · simpa [odLookup, h₂] using h
        · simp only [odLookup, if_neg h₂] at h ⊢
          simp only [odLookup, if_neg h₁] at h₀
          exact ih h₀ h

theorem odLookup_odSet_self {d : RecMap} {k : String} (h : odLookup d k = none) (v : Val) :
    odLookup (odSet d k v) k = some v := by
  induction d with
  | nil => simp [odSet, odLookup]
  | cons hd tl ih =>
      rcases hd with ⟨k₁, v₁⟩
      by_cases h₁ : k₁ = k
      · subst h₁; simp [odLookup] at h
      · simp only [odLookup, if_neg h₁] at h
        simp only [odSet, if_neg h₁, odLookup, if_neg h₁]
        exact ih h

theorem estimateLoop_used_mono {wl : String} {L : List (String × Val)}
    {remain used : RecMap} {loads : List ℚ} {r u : RecMap} {loads₂ : List ℚ}
    (h : estimateLoop wl L remain used loads = .ok (r, u, loads₂)) :
    ∀ k v, odLookup used k = some v → odLookup u k = some v := by
  induction L generalizing remain used loads with
  | nil =>
      simp only [estimateLoop, Except.ok.injEq, Prod.mk.injEq] at h
      rw [← h.2.1]
      exact fun k v hv => hv
  | cons hd tl ih =>
      rcases hd with ⟨k₁, v₁⟩
      by_cases hk : k₁ ∈ considerKeys
      · simp only [estimateLoop, if_pos hk] at h
        cases hu : odLookup used k₁ with
        | some u₀ =>
            rw [hu] at h
            cases v₁ with
            | s str => simp [asInt, Bind.bind, Except.bind] at h
            | i vm =>
                cases u₀ with
                | s str => simp [asInt, Bind.bind, Except.bind] at h
                | i vu =>
                    simp only [asInt, Bind.bind, Except.bind] at h
                    by_cases hz : vm = 0
                    · rw [if_pos hz] at h
                      by_cases hw : wl = "cpu"
                      · rw [if_pos hw] at h
                        exact ih h
                      · rw [if_neg hw] at h
                        exact absurd h (by simp)
                    · rw [if_neg hz] at h
                      exact ih h
        | none =>
            rw [hu] at h
            cases v₁ with
            | s str => simp [asInt, Bind.bind, Except.bind] at h
            | i vm =>
                simp only [asInt, Bind.bind, Except.bind] at h
                have step : ∀ k v, odLookup used k = some v →
                    odLookup (odSet used k₁ (.i 0)) k = some v :=
                  fun k v hv => odLookup_odSet_preserve hu _ hv
                by_cases hz : vm = 0
                · rw [if_pos hz] at h
                  by_cases hw : wl = "cpu"
                  · rw [if_pos hw] at h
                    exact fun k v hv => ih h k v (step k v hv)
                  · rw [if_neg hw] at h
                    exact absurd h (by simp)
                · rw [if_neg hz] at h
                  exact fun k v hv => ih h k v (step k v hv)
      · simp only [estimateLoop, if_neg hk] at h
        exact ih h

theorem estimateLoop_zero_loads {wl : String} {L : List (String × Val)}
    {remain used : RecMap} {loads : List ℚ} {r u : RecMap} {loads₂ : List ℚ}
    (hz : ∀ k v, (k, v) ∈ L → k ∈ considerKeys → v = Val.i 0)
    (h : estimateLoop wl L remain used loads = .ok (r, u, loads₂)) :
    loads₂ = loads := by
  induction L generalizing remain used loads with
  | nil =>
      simp only [estimateLoop, Except.ok.injEq, Prod.mk.injEq] at h
      exact h.2.2.symm
  | cons hd tl ih =>
      rcases hd with ⟨k₁, v₁⟩
      have hztl : ∀ k v, (k, v) ∈ tl → k ∈ considerKeys → v = Val.i 0 :=
        fun k v hm => hz k v (List.mem_cons_of_mem _ hm)
      by_cases hk : k₁ ∈ considerKeys
      · have hv₁ : v₁ = Val.i 0 := hz k₁ v₁ (List.mem_cons_self _ _) hk
        subst hv₁
        simp only [estimateLoop, if_pos hk] at h
        cases hu : odLookup used k₁ with
        | some u₀ =>
            rw [hu] at h
            cases u₀ with
            | s str => simp [asInt, Bind.bind, Except.bind] at h
            | i vu =>
                simp only [asInt, Bind.bind, Except.bind] at h
                simp only [reduceIte] at h
                by_cases hw : wl = "cpu"
                · rw [if_pos hw] at h
                  exact ih hztl h
                · rw [if_neg hw] at h
                  exact absurd h (by simp)
        | none =>
            rw [hu] at h
            simp only [asInt, Bind.bind, Except.bind] at h
            simp only [reduceIte] at h
            by_cases hw : wl = "cpu"
            · rw [if_pos hw] at h
              exact ih hztl h
            · rw [if_neg hw] at h
              exact absurd h (by simp)
      · simp only [estimateLoop, if_neg hk] at h
        exact ih hztl h

theorem estimateLoop_zero_entry_cpu {wl : String} {L : List (String × Val)}
    {remain used : RecMap} {loads : List ℚ} {r u : RecMap} {loads₂ : List ℚ}
    {k : String} (hk : k ∈ considerKeys) (hm : (k, Val.i 0) ∈ L)
    (h : estimateLoop wl L remain used loads = .ok (r, u, loads₂)) :
    wl = "cpu" := by
  induction L generalizing remain used loads with
  | nil => simp at hm
  | cons hd tl ih =>
      rcases hd with ⟨k₁, v₁⟩
      rcases List.mem_cons.mp hm with heq | htl
      · obtain ⟨hk₁, hv₁⟩ := Prod.mk.injEq .. |>.mp heq
        subst hk₁; subst hv₁
        simp only [estimateLoop, if_pos hk] at h
        cases hu : odLookup used k with
        | some u₀ =>
            rw [hu] at h
            cases u₀ with
            | s str => simp [asInt, Bind.bind, Except.bind] at h
            | i vu =>
                simp only [asInt, Bind.bind, Except.bind] at h
                simp only [reduceIte] at h
                by_cases hw : wl = "cpu"
                · exact hw
                · rw [if_neg hw] at h
                  exact absurd h (by simp)
        | none =>
            rw [hu] at h
            simp only [asInt, Bind.bind, Except.bind] at h
            simp only [reduceIte] at h
            by_cases hw : wl = "cpu"
            · exact hw
            · rw [if_neg hw] at h
              exact absurd h (by simp)
      · by_cases hk₁ : k₁ ∈ considerKeys
        · simp only [estimateLoop, if_pos hk₁] at h
          cases hu : odLookup used k₁ with
          | some u₀ =>
              rw [hu] at h
              cases v₁ with
              | s str => simp [asInt, Bind.bind, Except.bind] at h
              | i vm =>
                  cases u₀ with
                  | s str => simp [asInt, Bind.bind, Except.bind] at h
                  | i vu =>
                      simp only [asInt, Bind.bind, Except.bind] at h
                      by_cases hz : vm = 0
                      · rw [if_pos hz] at h
                        by_cases hw : wl = "cpu"
                        · exact hw
                        · rw [if_neg hw] at h
                          exact absurd h (by simp)
                      · rw [if_neg hz] at h
                        exact ih htl h
          | none =>
              rw [hu] at h
              cases v₁ with
              | s str => simp [asInt, Bind.bind, Except.bind] at h
              | i vm =>
                  simp only [asInt, Bind.bind, Except.bind] at h
                  by_cases hz : vm = 0
                  · rw [if_pos hz] at h
                    by_cases hw : wl = "cpu"
                    · exact hw
                    · rw [if_neg hw] at h
                      exact absurd h (by simp)
                  · rw [if_neg hz] at h
                    exact ih htl h
        · simp only [estimateLoop, if_neg hk₁] at h
          exact ih htl h

theorem pyRound_nonneg {x : ℚ} (h : 0 ≤ x) : 0 ≤ pyRound x := by
  have hf : (0 : ℤ) ≤ ⌊x⌋ := Int.le_floor.mpr (by exact_mod_cast h)
  unfold pyRound
  dsimp only
  split
  · exact hf
  · split
    · omega
    · split
      · exact hf
      · omega

theorem pyRound_le_of_le {x : ℚ} {n : ℤ} (h : x ≤ (n : ℚ)) : pyRound x ≤ n := by
  have hf : ⌊x⌋ ≤ n := by
    calc ⌊x⌋ ≤ ⌊(n : ℚ)⌋ := Int.floor_le_floor h
    _ = n := Int.floor_intCast n
  unfold pyRound
  dsimp only
  split
  · exact hf
  · rename_i h₁
    push_neg at h₁
    have hx : (⌊x⌋ : ℚ) + 1/2 ≤ x := by linarith
    have hlt : (⌊x⌋ : ℚ) < (n : ℚ) := by linarith
    have : ⌊x⌋ < n := by exact_mod_cast hlt
    split
    · omega
    · split
      · exact hf
      · omega

theorem list_sum_le_length (l : List ℚ) (h : ∀ q ∈ l, q ≤ 1) :
    l.sum ≤ (l.length : ℚ) := by
  induction l with
  | nil => simp
  | cons hd tl ih =>
      simp only [List.sum_cons, List.length_cons]
      have h₁ := h hd (List.mem_cons_self _ _)
      have h₂ := ih (fun q hq => h q (List.mem_cons_of_mem _ hq))
      push_cast
      linarith

theorem roundTo2_mem_unit {x : ℚ} (h₀ : 0 ≤ x) (h₁ : x ≤ 1) :
    0 ≤ roundTo2 x ∧ roundTo2 x ≤ 1 := by
  unfold roundTo2
  have hn : 0 ≤ pyRound (x * 100) := pyRound_nonneg (by linarith)
  have hl : pyRound (x * 100) ≤ (100 : ℤ) := pyRound_le_of_le (by push_cast; linarith)
  constructor
  · positivity
  · rw [div_le_one (by norm_num)]
    exact_mod_cast hl

theorem estimateLoop_bounds {wl : String} {L : List (String × Val)}
    {remain used : RecMap} {loads : List ℚ} {r u : RecMap} {loads₂ : List ℚ}
    (h : estimateLoop wl L remain used loads = .ok (r, u, loads₂))
    (hin : ∀ q ∈ loads, 0 ≤ q ∧ q ≤ 1)
    (H : ∀ k vm vu, (k, Val.i vm) ∈ L → k ∈ considerKeys →
         odLookup u k = some (.i vu) → 0 ≤ vu ∧ vu ≤ vm) :
    ∀ q ∈ loads₂, 0 ≤ q ∧ q ≤ 1 := by
  induction L generalizing remain used loads with
  | nil =>
      simp only [estimateLoop, Except.ok.injEq, Prod.mk.injEq] at h
      rw [← h.2.2]
      exact hin
  | cons hd tl ih =>
      rcases hd with ⟨k₁, v₁⟩
      have Htl : ∀ k vm vu, (k, Val.i vm) ∈ tl → k ∈ considerKeys →
          odLookup u k = some (.i vu) → 0 ≤ vu ∧ vu ≤ vm :=
        fun k vm vu hm => H k vm vu (List.mem_cons_of_mem _ hm)
      by_cases hk : k₁ ∈ considerKeys
      · simp only [estimateLoop, if_pos hk] at h
        cases hu : odLookup used k₁ with
        | some u₀ =>
            rw [hu] at h
            cases v₁ with
            | s str => simp [asInt, Bind.bind, Except.bind] at h
            | i vm =>
                cases u₀ with
                | s str => simp [asInt, Bind.bind, Except.bind] at h
                | i vu =>
                    simp only [asInt, Bind.bind, Except.bind] at h
                    have hupersist : odLookup u k₁ = some (.i vu) := by
                      by_cases hz : vm = 0
                      · rw [if_pos hz] at h
                        by_cases hw : wl = "cpu"
                        · rw [if_pos hw] at h
                          exact estimateLoop_used_mono h k₁ _ hu
                        · rw [if_neg hw] at h
                          exact absurd h (by simp)
                      · rw [if_neg hz] at h
                        exact estimateLoop_used_mono h k₁ _ hu
                    have hb := H k₁ vm vu (List.mem_cons_self _ _) hk hupersist
                    by_cases hz : vm = 0
                    · rw [if_pos hz] at h
                      by_cases hw : wl = "cpu"
                      · rw [if_pos hw] at h
                        exact ih h hin Htl
                      · rw [if_neg hw] at h
                        exact absurd h (by simp)
                    · rw [if_neg hz] at h
                      refine ih h ?_ Htl
                      intro q hq
                      rcases List.mem_append.mp hq with hq₁ | hq₂
                      · exact hin q hq₁
                      · have hq₀ : q = (vu : ℚ) / (vm : ℚ) := by simpa using hq₂
                        subst hq₀
                        have hvm : (0 : ℤ) < vm := by
                          rcases lt_or_eq_of_le (le_trans hb.1 hb.2) with h' | h'
                          · exact h'
                          · exact absurd h'.symm hz
                        have hvmq : (0 : ℚ) < (vm : ℚ) := by exact_mod_cast hvm
                        constructor
                        · apply div_nonneg _ (le_of_lt hvmq)
                          exact_mod_cast hb.1
                        · rw [div_le_one hvmq]
                          exact_mod_cast hb.2
        | none =>
            rw [hu] at h
            cases v₁ with
            | s str => simp [asInt, Bind.bind, Except.bind] at h
            | i vm =>
                simp only [asInt, Bind.bind, Except.bind] at h
                have hself : odLookup (odSet used k₁ (.i 0)) k₁ = some (.i 0) :=
                  odLookup_odSet_self hu _
                by_cases hz : vm = 0
                · rw [if_pos hz] at h
                  by_cases hw : wl = "cpu"
                  · rw [if_pos hw] at h
                    exact ih h hin Htl
                  · rw [if_neg hw] at h
                    exact absurd h (by simp)
                · rw [if_neg hz] at h
                  have hupersist : odLookup u k₁ = some (.i 0) :=
                    estimateLoop_used_mono h k₁ _ hself
                  have hb := H k₁ vm 0 (List.mem_cons_self _ _) hk hupersist
                  refine ih h ?_ Htl
                  intro q hq
                  rcases List.mem_append.mp hq with hq₁ | hq₂
                  · exact hin q hq₁
                  · have hq₀ : q = ((0 : Int) : ℚ) / (vm : ℚ) := by simpa using hq₂
                    subst hq₀
                    simp
      · simp only [estimateLoop, if_neg hk] at h
        exact ih h hin Htl

theorem estimateNodeLoad_ok_inv {wl : String} {machine used : RecMap}
    {r u : RecMap} {load : ℚ}
    (h : estimateNodeLoad wl machine used = .ok (r, u, load)) :
    ∃ loads : List ℚ, estimateLoop wl machine [] used [] = .ok (r, u, loads) ∧
      loads.length ≠ 0 ∧ load = roundTo2 (loads.sum / (loads.length : ℚ)) := by
  unfold estimateNodeLoad at h
  rcases bindOk h with ⟨⟨r₁, u₁, loads⟩, hloop, h⟩
  dsimp only at h
  by_cases hl : loads.length = 0
  · rw [if_pos hl] at h
    exact absurd h (by simp)
  · rw [if_neg hl] at h
    simp only [Except.ok.injEq, Prod.mk.injEq] at h
    exact ⟨loads, by rw [hloop, h.1, h.2.1], hl, h.2.2.symm⟩

theorem estimateNodeLoad_bounds {wl : String} {machine used : RecMap}
    {r u : RecMap} {load : ℚ}
    (h : estimateNodeLoad wl machine used = .ok (r, u, load))
    (H : ∀ k vm vu, (k, Val.i vm) ∈ machine → k ∈ considerKeys →
         odLookup u k = some (.i vu) → 0 ≤ vu ∧ vu ≤ vm) :
    0 ≤ load ∧ load ≤ 1 := by
  obtain ⟨loads, hloop, hne, hload⟩ := estimateNodeLoad_ok_inv h
  have hb := estimateLoop_bounds hloop (by simp) H
  have hlen : (0 : ℚ) < (loads.length : ℚ) := by
    exact_mod_cast Nat.pos_of_ne_zero hne
  have hsum₀ : 0 ≤ loads.sum := List.sum_nonneg (fun q hq => (hb q hq).1)
  have hsum₁ : loads.sum ≤ (loads.length : ℚ) :=
    list_sum_le_length _ (fun q hq => (hb q hq).2)
  rw [hload]
  exact roundTo2_mem_unit (div_nonneg hsum₀ hlen.le) ((div_le_one hlen).mpr hsum₁)

theorem estimateNodeLoad_all_zero {wl : String} {machine used : RecMap}
    (hz : ∀ k v, (k, v) ∈ machine → k ∈ considerKeys → v = Val.i 0) :
    ∀ x, estimateNodeLoad wl machine used ≠ .ok x := by
  rintro ⟨r, u, load⟩ h
  obtain ⟨loads, hloop, hne, _⟩ := estimateNodeLoad_ok_inv h
  exact hne (by rw [estimateLoop_zero_loads hz hloop]; rfl)

theorem constructNode_ok_inv {name : String} {raw : RawNode} {smt : Bool} {n : Node}
    (h : constructNode name raw smt = .ok n) :
    ∃ stw machine st₁ used st₂ remain used₁ load,
      parseState raw.state = .ok stw ∧
      parseResourceInfo name ⟨none, none, none⟩ raw.resources_available true smt
        = .ok (machine, st₁) ∧
      parseResourceInfo name st₁ raw.resources_assigned smt false = .ok (used, st₂) ∧
      estimateNodeLoad (resolveType st₂).2 machine used = .ok (remain, used₁, load) ∧
      n.type = (resolveType st₂).1 ∧ n.workloads = (resolveType st₂).2 ∧
      n.rsrc_machine = machine ∧ n.rsrc_used = used₁ ∧ n.rsrc_remain = remain ∧
      n.load_estimate = load ∧ n.state = stw.1 := by
  unfold constructNode at h
  rcases bindOk h with ⟨⟨state, warned⟩, hs, h⟩
  dsimp only at h
  rcases bindOk h with ⟨⟨machine, st₁⟩, hm, h⟩
  dsimp only at h
  rcases bindOk h with ⟨⟨used, st₂⟩, hu, h⟩
  dsimp only at h
  rcases hrt : resolveType st₂ with ⟨ty, wl⟩
  rw [hrt] at h
  dsimp only at h
  rcases bindOk h with ⟨⟨remain, used₁, load⟩, he, h⟩
  dsimp only at h
  simp only [Except.ok.injEq] at h
  refine ⟨(state, warned), machine, st₁, used, st₂, remain, used₁, load,
    hs, hm, hu, ?_, ?_, ?_, ?_, ?_, ?_, ?_, ?_⟩
  · rw [hrt]; exact he
  · rw [← h, hrt]
  · rw [← h, hrt]
  · rw [← h]
  · rw [← h]
  · rw [← h]
  · rw [← h]
  · rw [← h]

set_option maxHeartbeats 3200000 in
theorem parseOneResource_paired {selfId : String} {smt : Bool} {st : SideState}
    {k : String} {v : Val} {acc : List (String × Val)} {st' : SideState}
    (h : parseOneResource selfId smt st k v = .ok (acc, st'))
    (hst : typeWlPaired st) : typeWlPaired st' := by
  unfold parseOneResource at h
  dsimp only at h
  rcases hacc : (if k = "accelerator_model" || k = "gpu_id" then
      if v = .s "none" then
        ([(("gpu_model" : String), Val.s "igpu")],
         { st with workloads := some "cpu", type := some "cpu" })
      else
        ([(("gpu_model" : String), normRawValue v)],
         { st with workloads := some "gpu", type := some "gpu" })
    else ([], st)) with ⟨acc₁, st₁⟩
  have hst₁ : typeWlPaired st₁ := by
    by_cases h₁ : k = "accelerator_model" || k = "gpu_id"
    · rw [if_pos h₁] at hacc
      by_cases h₂ : v = .s "none"
      · rw [if_pos h₂] at hacc
        cases hacc; rfl
      · rw [if_neg h₂] at hacc
        cases hacc; rfl
    · rw [if_neg h₁] at hacc
      cases hacc; exact hst
  rw [hacc] at h
  dsimp only at h
  by_cases hhost : k = "host"
  · rw [if_pos hhost] at h
    by_cases hne : normRawValue v ≠ Val.s selfId
    · rw [if_pos hne] at h
      exact absurd h (by simp [throw, throwThe, MonadExceptOf.throw, Bind.bind, Except.bind])
    · rw [if_neg hne] at h
      simp only [throw_eq, pure_eq, ok_bind, error_bind] at h
      repeat' first
        | (split at h)
        | (replace h := bindOk h; obtain ⟨w, hw, h⟩ := h; (try simp only [ok_bind, error_bind] at h); (try dsimp only at h))
      all_goals first
        | (simp only [Except.ok.injEq, Prod.mk.injEq] at h; rw [← h.2]; exact hst₁)
        | (exact absurd h (by simp))
  · rw [if_neg hhost] at h
    simp only [throw_eq, pure_eq, ok_bind, error_bind] at h
    repeat' first
      | (split at h)
      | (replace h := bindOk h; obtain ⟨w, hw, h⟩ := h; (try simp only [ok_bind, error_bind] at h); (try dsimp only at h))
    all_goals first
      | (simp only [Except.ok.injEq, Prod.mk.injEq] at h; rw [← h.2]; exact hst₁)
      | (exact absurd h (by simp))

theorem parseResourceItems_paired {selfId : String} {smt : Bool} :
    ∀ {items : List (String × Val)} {st : SideState} {acc : List (String × Val)}
      {st' : SideState},
      parseResourceItems selfId smt st items = .ok (acc, st') →
      typeWlPaired st → typeWlPaired st'
  | [], st, acc, st', h, hst => by
      simp only [parseResourceItems, Except.ok.injEq, Prod.mk.injEq] at h
      rw [← h.2]
      exact hst
  | (k, v) :: rest, st, acc, st', h, hst => by
      unfold parseResourceItems at h
      rcases bindOk h with ⟨⟨acc₁, st₁⟩, h₁, h⟩
      dsimp only at h
      rcases bindOk h with ⟨⟨acc₂, st₂⟩, h₂, h⟩
      dsimp only at h
      simp only [Except.ok.injEq, Prod.mk.injEq] at h
      rw [← h.2]
      exact parseResourceItems_paired h₂ (parseOneResource_paired h₁ hst)

theorem parseResourceInfo_paired {selfId : String} {st : SideState}
    {info : List (String × Val)} {amin smt : Bool} {rec : RecMap} {st' : SideState}
    (h : parseResourceInfo selfId st info amin smt = .ok (rec, st'))
    (hst : typeWlPaired st) : typeWlPaired st' := by
  unfold parseResourceInfo at h
  rcases bindOk h with ⟨⟨pairs, stp⟩, hitems, h⟩
  simp only [Except.ok.injEq, Prod.mk.injEq] at h
  rw [← h.2]
  exact parseResourceItems_paired hitems hst

theorem resolveType_eq_of_paired {st : SideState} (h : typeWlPaired st) :
    (resolveType st).1 = (resolveType st).2 := by
  rcases st with ⟨ty, wl, ql⟩
  replace h : ty = wl := h
  subst h
  cases ty <;> rfl


theorem char_toNat_inj {a b : Char} (h : a.toNat = b.toNat) : a = b :=
  Char.eq_of_val_eq (UInt32.ext h)

theorem listLe_refl (a : List Char) : listLe a a = true := by
  induction a with
  | nil => rfl
  | cons c cs ih => simp [listLe, ih]

theorem listLe_total (a b : List Char) : listLe a b = true ∨ listLe b a = true := by
  induction a generalizing b with
  | nil => left; rfl
  | cons c cs ih =>
      cases b with
      | nil => right; rfl
      | cons d ds =>
          rcases Nat.lt_trichotomy c.toNat d.toNat with h | h | h
          · left; simp [listLe, h]
          · have hcd : c = d := char_toNat_inj h
            subst hcd
            rcases ih ds with h' | h'
            · left; simp [listLe, h']
            · right; simp [listLe, h']
          · right; simp [listLe, h]

theorem listLe_antisymm {a b : List Char} (h₁ : listLe a b = true)
    (h₂ : listLe b a = true) : a = b := by
  induction a generalizing b with
  | nil =>
      cases b with
      | nil => rfl
      | cons d ds => simp [listLe] at h₂
  | cons c cs ih =>
      cases b with
      | nil => simp [listLe] at h₁
      | cons d ds =>
          rcases Nat.lt_trichotomy c.toNat d.toNat with h | h | h
          · simp [listLe, h, Nat.lt_asymm h] at h₂
          · have hcd : c = d := char_toNat_inj h
            subst hcd
            simp [listLe, lt_irrefl] at h₁ h₂
            rw [ih h₁ h₂]
          · simp [listLe, h, Nat.lt_asymm h] at h₁

theorem listLe_trans {a b c : List Char} (h₁ : listLe a b = true)
    (h₂ : listLe b c = true) : listLe a c = true := by
  induction a generalizing b c with
  | nil => rfl
  | cons x xs ih =>
      cases b with
      | nil => simp [listLe] at h₁
      | cons y ys =>
          cases c with
          | nil => simp [listLe] at h₂
          | cons z zs =>
              rcases Nat.lt_trichotomy x.toNat y.toNat with hxy | hxy | hxy
              · rcases Nat.lt_trichotomy y.toNat z.toNat with hyz | hyz | hyz
                · simp [listLe, Nat.lt_trans hxy hyz]
                · have hxz : x.toNat < z.toNat := hyz ▸ hxy
                  simp [listLe, hxz]
                · simp [listLe, hyz, Nat.lt_asymm hyz] at h₂
              · have : x = y := char_toNat_inj hxy
                subst this
                simp only [listLe, lt_irrefl, if_false] at h₁
                rcases Nat.lt_trichotomy x.toNat z.toNat with hxz | hxz | hxz
                · simp [listLe, hxz]
                · have : x = z := char_toNat_inj hxz
                  subst this
                  simp only [listLe, lt_irrefl, if_false] at h₂ ⊢
                  exact ih h₁ h₂
                · simp [listLe, hxz, Nat.lt_asymm hxz] at h₂
              · simp [listLe, hxy, Nat.lt_asymm hxy] at h₁

end ClusterInfo

namespace ClusterInfo

theorem valLe_trans {a b c : Val} (h₁ : valLe a b = true) (h₂ : valLe b c = true) :
    valLe a c = true := by
  cases a <;> cases b <;> cases c <;> simp_all [valLe]
  · omega
  · exact listLe_trans h₁ h₂

theorem valLe_total (a b : Val) : valLe a b = true ∨ valLe b a = true := by
  cases a <;> cases b <;> simp_all [valLe]
  · omega
  · exact listLe_total _ _

theorem pairLe_trans {a b c : String × Val} (h₁ : pairLe a b = true)
    (h₂ : pairLe b c = true) : pairLe a c = true := by
  unfold pairLe at h₁ h₂ ⊢
  by_cases e₁ : a.1.data = b.1.data <;> by_cases e₂ : b.1.data = c.1.data
  · rw [if_pos e₁] at h₁
    rw [if_pos e₂] at h₂
    rw [if_pos (e₁.trans e₂)]
    exact valLe_trans h₁ h₂
  · rw [if_pos e₁] at h₁
    rw [if_neg e₂] at h₂
    rw [if_neg (e₁ ▸ e₂), e₁]
    exact h₂
  · rw [if_neg e₁] at h₁
    rw [if_pos e₂] at h₂
    rw [if_neg (e₂ ▸ e₁), ← e₂]
    exact h₁
  · rw [if_neg e₁] at h₁
    rw [if_neg e₂] at h₂
    by_cases e₃ : a.1.data = c.1.data
    · exfalso
      apply e₁
      rw [e₃] at h₁ ⊢
      exact (listLe_antisymm h₂ h₁) ▸ rfl
    · rw [if_neg e₃]
      exact listLe_trans h₁ h₂

theorem pairLe_total (a b : String × Val) : pairLe a b = true ∨ pairLe b a = true := by
  unfold pairLe
  by_cases e : a.1.data = b.1.data
  · rw [if_pos e, if_pos e.symm]
    exact valLe_total _ _
  · rw [if_neg e, if_neg (fun hc => e hc.symm)]
    exact listLe_total _ _

instance : IsTrans (String × Val) (fun a b => pairLe a b = true) :=
  ⟨fun _ _ _ => pairLe_trans⟩

instance : IsTotal (String × Val) (fun a b => pairLe a b = true) :=
  ⟨pairLe_total⟩

theorem pairLe_imp_keyLe {a b : String × Val} (h : pairLe a b = true) :
    listLe a.1.data b.1.data = true := by
  unfold pairLe at h
  by_cases e : a.1.data = b.1.data
  · rw [e]
    exact listLe_refl _
  · rwa [if_neg e] at h

theorem sortPairs_sorted (l : List (String × Val)) :
    List.Sorted (fun a b => pairLe a b = true) (sortPairs l) :=
  List.sorted_insertionSort _ l

theorem foldl_odSet_keys_sublist (l : List (String × Val)) (acc : RecMap) :
    List.Sublist (recKeys (l.foldl (fun d kv => odSet d kv.1 kv.2) acc))
      (recKeys acc ++ recKeys l) := by
  induction l generalizing acc with
  | nil => simpa using List.Sublist.refl _
  | cons hd tl ih =>
      simp only [List.foldl_cons]
      have step : List.Sublist (recKeys (odSet acc hd.1 hd.2)) (recKeys acc ++ [hd.1]) := by
        by_cases hk : hd.1 ∈ recKeys acc
        · rw [odSet_recKeys_mem hk]
          exact List.sublist_append_left _ _
        · rw [odSet_recKeys_new hk]
      refine List.Sublist.trans (ih _) ?_
      have h₂ := step.append_right (recKeys tl)
      rw [List.append_assoc, List.singleton_append, ← recKeys_cons] at h₂
      exact h₂

theorem odOfPairs_keys_sorted {l : List (String × Val)}
    (h : List.Sorted (fun a b => pairLe a b = true) l) :
    lexSorted (odOfPairs l) := by
  have hkeys : List.Sorted (fun a b : String => listLe a.data b.data = true)
      (recKeys l) :=
    List.Pairwise.map Prod.fst (fun a b hab => pairLe_imp_keyLe hab) h
  have hsub : List.Sublist (recKeys (odOfPairs l)) (recKeys l) := by
    simpa using foldl_odSet_keys_sublist l []
  exact List.Pairwise.sublist hsub hkeys

theorem digitOfNat_toNat : ∀ d, d < 10 → (digitOfNat d).toNat = 48 + d := by decide

theorem digitOfNat_isDigit : ∀ d, d < 10 → isDigitCh (digitOfNat d) = true := by decide

theorem digitOfNat_notUnit : ∀ d, d < 10 → isUnitCh (digitOfNat d) = false := by decide

theorem digitOfNat_lower : ∀ d, d < 10 → lowerCh (digitOfNat d) = digitOfNat d := by decide

theorem parseNat_append_digit (xs : List Char) (c : Char) :
    parseNat (xs ++ [c]) = parseNat xs * 10 + (c.toNat - 48) := by
  unfold parseNat
  rw [List.foldl_append]
  rfl

theorem toDigitsAux_spec :
    ∀ fuel n, n < fuel →
      toDigitsAux fuel n ≠ [] ∧
      (∀ c ∈ toDigitsAux fuel n, ∃ d, d < 10 ∧ c = digitOfNat d) ∧
      parseNat (toDigitsAux fuel n) = n := by
  intro fuel
  induction fuel with
  | zero => intro n h; omega
  | succ fuel ih =>
      intro n h
      by_cases h10 : n < 10
      · refine ⟨by simp [toDigitsAux, h10], ?_, ?_⟩
        · intro c hc
          simp [toDigitsAux, h10] at hc
          exact ⟨n, h10, hc⟩
        · simp [toDigitsAux, h10, parseNat, digitOfNat_toNat n h10]
      · have hdiv : n / 10 < fuel := by omega
        obtain ⟨hne, hdig, hval⟩ := ih (n / 10) hdiv
        have hmod : n % 10 < 10 := Nat.mod_lt _ (by omega)
        refine ⟨by simp [toDigitsAux, h10], ?_, ?_⟩
        · intro c hc
          simp only [toDigitsAux, if_neg h10, List.mem_append, List.mem_singleton] at hc
          rcases hc with hc | hc
          · exact hdig c hc
          · exact ⟨n % 10, hmod, hc⟩
        · simp only [toDigitsAux, if_neg h10]
          rw [parseNat_append_digit, hval, digitOfNat_toNat _ hmod]
          omega

theorem decimalRepr_spec (n : Nat) :
    decimalRepr n ≠ [] ∧
    (∀ c ∈ decimalRepr n, ∃ d, d < 10 ∧ c = digitOfNat d) ∧
    parseNat (decimalRepr n) = n :=
  toDigitsAux_spec (n + 1) n (Nat.lt_succ_self n)

theorem takeWhile_append_all {p : Char → Bool} {xs : List Char} (ys : List Char)
    (h : ∀ c ∈ xs, p c = true) :
    (xs ++ ys).takeWhile p = xs ++ ys.takeWhile p := by
  induction xs with
  | nil => rfl
  | cons c cs ih =>
      have hc := h c (List.mem_cons_self _ _)
      simp only [List.cons_append, List.takeWhile_cons, hc, if_true]
      rw [ih (fun c hc => h c (List.mem_cons_of_mem _ hc))]

theorem findRun_append_none {p : Char → Bool} {xs : List Char} (ys : List Char)
    (h : ∀ c ∈ xs, p c = false) :
    findRun p (xs ++ ys) = findRun p ys := by
  induction xs with
  | nil => rfl
  | cons c cs ih =>
      have hc := h c (List.mem_cons_self _ _)
      simp only [List.cons_append, findRun, hc, Bool.false_eq_true, if_false]
      exact ih (fun c hc => h c (List.mem_cons_of_mem _ hc))

theorem findRun_all_head_stop {p : Char → Bool} {xs : List Char} {c : Char}
    (cs : List Char) (hne : xs ≠ []) (hall : ∀ x ∈ xs, p x = true)
    (hc : p c = false) :
    findRun p (xs ++ c :: cs) = some xs := by
  cases xs with
  | nil => exact absurd rfl hne
  | cons x xs' =>
      have hx := hall x (List.mem_cons_self _ _)
      simp only [List.cons_append, findRun, hx, if_true, List.append_eq]
      rw [takeWhile_append_all (c :: cs) (fun y hy => hall y (List.mem_cons_of_mem _ hy))]
      simp [List.takeWhile_cons, hc]



theorem map_lower_fixed (l : List Char) (h : ∀ x ∈ l, lowerCh x = x) :
    l.map lowerCh = l := by
  induction l with
  | nil => rfl
  | cons c cs ih =>
      rw [List.map_cons, h c (List.mem_cons_self _ _),
        ih (fun x hx => h x (List.mem_cons_of_mem _ hx))]

theorem parseMemExpr_repr_unit (V : Nat) (u : String) (c : Char)
    (cs run : List Char) (e : Nat)
    (hu : u.data = c :: cs)
    (hdc : isDigitCh c = false)
    (hlow : u.data.map lowerCh = u.data)
    (hrun : findRun isUnitCh u.data = some run)
    (hlook : memUnitLookup run = some e) :
    parseMemExpr (decimalRepr V ++ u.data) = .ok (V, e) := by
  obtain ⟨hne, hdig, hval⟩ := decimalRepr_spec V
  have hallDigit : ∀ x ∈ decimalRepr V, isDigitCh x = true := by
    intro x hx
    obtain ⟨d, hd, rfl⟩ := hdig x hx
    exact digitOfNat_isDigit d hd
  have hallNotUnit : ∀ x ∈ decimalRepr V, isUnitCh x = false := by
    intro x hx
    obtain ⟨d, hd, rfl⟩ := hdig x hx
    exact digitOfNat_notUnit d hd
  have hallLower : ∀ x ∈ decimalRepr V, lowerCh x = x := by
    intro x hx
    obtain ⟨d, hd, rfl⟩ := hdig x hx
    exact digitOfNat_lower d hd
  have h₁ : findRun isDigitCh (decimalRepr V ++ u.data) = some (decimalRepr V) := by
    rw [hu]
    exact findRun_all_head_stop cs hne hallDigit hdc
  have h₂ : (decimalRepr V ++ u.data).map lowerCh = decimalRepr V ++ u.data := by
    rw [List.map_append, hlow, map_lower_fixed _ hallLower]
  have h₃ : findRun isUnitCh ((decimalRepr V ++ u.data).map lowerCh) = some run := by
    rw [h₂, findRun_append_none u.data hallNotUnit, hrun]
  unfold parseMemExpr
  rw [h₁, h₃]
  dsimp only
  rw [hlook, hval]

theorem normMemToGibi_repr_unit (V : Nat) (blunt : Bool) (u : String) (c : Char)
    (cs run : List Char) (e : Nat)
    (hu : u.data = c :: cs)
    (hdc : isDigitCh c = false)
    (hlow : u.data.map lowerCh = u.data)
    (hrun : findRun isUnitCh u.data = some run)
    (hlook : memUnitLookup run = some e) :
    normMemToGibi (decimalRepr V ++ u.data) blunt =
      .ok (if blunt then ((pyRound ((V : ℚ) / 1024 ^ e) : ℤ) : ℚ)
           else roundTo2 ((V : ℚ) / 1024 ^ e)) := by
  unfold normMemToGibi
  rw [parseMemExpr_repr_unit V u c cs run e hu hdc hlow hrun hlook]
  rw [ok_bind]
  dsimp only
  by_cases hb : blunt
  · rw [if_pos hb, if_pos hb]
  · rw [if_neg hb, if_neg hb]

/-! ## Claim theorems -/

/-- **C1** (code_bug evaluation).  The free-triple starvation rule is dead
code: on a constructed node with 0 remaining cores (< 1), `_get_free`
returns the actual remaining triple for every priority, never
`(-1,-1,-1)`, because the conditional `free_rsrc = -1,-1,-1` of line 487 is
unconditionally overwritten by the priority dispatch of lines 489-494. -/
theorem c1_starvation_rule_dead :
    constructNode "n01" rawStarved false = .ok nodeStarved ∧
    lookInt nodeStarved.rsrc_remain "cpu_cores" = .ok 0 ∧
    getFree nodeStarved "cpu" = .ok (0, 4, 0) ∧
    getFree nodeStarved "gpu" = .ok (0, 4, 0) ∧
    getFree nodeStarved "mem" = .ok (4, 0, 0) ∧
    getFree nodeStarved "cpu" ≠ .ok (-1, -1, -1) := by decide

/-- **C2** (code_bug evaluation).  Line 297 passes `correct_smt` as the
second positional argument of `_parse_resource_info`, which is
`assert_minimal_set`: with the hyperthread-correction flag on, the
used/assigned parse (`assert_minimal_set = True`, `correct_smt = False`
below) defaults all three numeric keys to 0 on an empty raw map, although
no raw key was present. -/
theorem c2_used_set_defaults_under_smt :
    parseResourceInfo "node01" st₀ [] true false =
      .ok ([("cpu_cores", .i 0), ("gpu_boards", .i 0), ("memory_gb", .i 0)], st₀) ∧
    odLookup [] "cpu_cores" = none ∧
    odLookup [] "gpu_boards" = none ∧
    odLookup [] "memory_gb" = none := by decide

/-- **C3** (code_bug evaluation).  A raw state expression consisting of the
ambiguous-state token `<various>` is classified with *no* diagnostic
(the check `node_state == "<various>"` compares an enum member with a
string and is always false) and the returned state is the `online` member:
`various = 0` aliases `online` in the `NodeState` enum, so the result is
not distinct from `online`. -/
theorem c3_various_silent_and_online :
    parseState "<various>" = .ok (.online, false) ∧
    stateLookup "various".data = some .online ∧
    NodeState.online.value = 0 := by decide

/-- **C6** (code_bug evaluation).  In a cluster with 2 GPU nodes of which 1
is online, the printed GPU-node online percentage is 100 — line 127
computes `percent(online_gpu_nodes, online_gpu_nodes)` — while
`round(online_gpu_nodes / gpu_nodes * 100, 1)` is 50. -/
theorem c6_gpu_percent_wrong_denominator :
    constructNode "cpu01" rawCpuOnline false = .ok nodeCpuOnline ∧
    constructNode "gpu01" rawGpuOnline false = .ok nodeGpuOnline ∧
    constructNode "gpu02" rawGpuOffline false = .ok nodeGpuOffline ∧
    clusterSummary [nodeCpuOnline, nodeGpuOnline, nodeGpuOffline] =
      .ok summaryThreeNodes ∧
    summaryThreeNodes.pctOnlineGpuNodes = 100 ∧
    roundTo1 ((summaryThreeNodes.onlineGpuNodes : ℚ) /
      (summaryThreeNodes.gpuNodes : ℚ) * 100) = 50 := by decide

/-- **C9** (confirmed).  The machine-capacity size ordering is not
antisymmetric: for the constructed nodes with capacities 2 cores / 1 GiB /
0 boards and 1 core / 2 GiB / 0 boards, both `a < b` and `b < a` hold. -/
theorem c9_size_order_not_antisymmetric :
    constructNode "size1" rawSize21 false = .ok nodeSize21 ∧
    constructNode "size2" rawSize12 false = .ok nodeSize12 ∧
    nodeLt nodeSize21 nodeSize12 = .ok true ∧
    nodeLt nodeSize12 nodeSize21 = .ok true := by decide

/-- **C4** (counterexample).  A successfully constructed node whose machine
GPU-board count is 2 (> 0) but whose class is `cpu`, not `gpu`: the raw map
reports `ngpus = 2` and carries no accelerator descriptor. -/
theorem c4_counterexample :
    constructNode "n1" rawGpuNoAccel false = .ok nodeGpuNoAccel ∧
    odLookup nodeGpuNoAccel.rsrc_machine "gpu_boards" = some (.i 2) ∧
    nodeGpuNoAccel.type = "cpu" ∧
    nodeGpuNoAccel.type ≠ "gpu" := by decide

/-- **C5** (counterexample).  A successfully constructed node whose load
estimate is 2 (> 1): 16 assigned cores on a 4-core machine give the ratio
list `[4, 0]` and mean 2. -/
theorem c5_counterexample :
    constructNode "over01" rawOverassigned false = .ok nodeOverassigned ∧
    nodeOverassigned.load_estimate = 2 ∧
    ¬nodeOverassigned.load_estimate ≤ 1 := by decide

/-- **C7** (counterexample).  For the machine resource set built from the
raw map `{mem: "4gb"}`, the defaulted keys `cpu_cores` and `gpu_boards` are
appended after the sorted keys, so the returned record's keys
`[memory_gb, cpu_cores, gpu_boards]` are not in lexicographic order. -/
theorem c7_counterexample :
    parseResourceInfo "node02" st₀ [("mem", .s "4gb")] true false =
      .ok ([("memory_gb", .i 4), ("cpu_cores", .i 0), ("gpu_boards", .i 0)], st₀) ∧
    ¬lexSorted [("memory_gb", .i 4), ("cpu_cores", .i 0), ("gpu_boards", .i 0)] := by
  exact ⟨by decide, by decide⟩

/-- **C4** (amended).  For every successfully constructed node, a machine
GPU-board count of zero forces class `cpu` (the zero-capacity assertion of
`_estimate_node_load` enforces `workloads == "cpu"`); equivalently, no
constructed node of class `gpu` has zero machine GPU boards.  A board count
greater than zero does *not* force class `gpu` (see the counterexample). -/
theorem c4_zero_boards_forces_cpu {name : String} {raw : RawNode} {smt : Bool}
    {n : Node} (h : constructNode name raw smt = .ok n)
    (hz : odLookup n.rsrc_machine "gpu_boards" = some (.i 0)) :
    n.type = "cpu" := by
  obtain ⟨stw, machine, st₁, used, st₂, remain, used₁, load, hs, hm, hu, he,
    hty, hwl, hmach, _, _, _, _⟩ := constructNode_ok_inv h
  have hpaired : typeWlPaired st₂ :=
    parseResourceInfo_paired hu (parseResourceInfo_paired hm rfl)
  rw [hmach] at hz
  have hmem : ("gpu_boards", Val.i 0) ∈ machine := odLookup_mem hz
  obtain ⟨loads, hloop, _, _⟩ := estimateNodeLoad_ok_inv he
  have hcpu : (resolveType st₂).2 = "cpu" :=
    estimateLoop_zero_entry_cpu (by decide) hmem hloop
  rw [hty, resolveType_eq_of_paired hpaired, hcpu]

/-- **C4** witness: the amended theorem applied to a concrete CPU node with
zero machine GPU boards. -/
theorem c4_witness : nodeCpuOnline.type = "cpu" :=
  c4_zero_boards_forces_cpu
    (show constructNode "cpu01" rawCpuOnline false = .ok nodeCpuOnline by decide)
    (by decide)

/-- **C5** (amended).  For every successfully constructed node whose stored
records satisfy `0 ≤ used ≤ machine` in each of the three tracked numeric
dimensions, the load estimate lies in `[0, 1]`.  Without that bound the
estimate can exceed 1 (see the counterexample). -/
theorem c5_load_bounds {name : String} {raw : RawNode} {smt : Bool} {n : Node}
    (h : constructNode name raw smt = .ok n)
    (H : ∀ k vm vu, k ∈ considerKeys →
         odLookup n.rsrc_machine k = some (.i vm) →
         odLookup n.rsrc_used k = some (.i vu) → 0 ≤ vu ∧ vu ≤ vm) :
    0 ≤ n.load_estimate ∧ n.load_estimate ≤ 1 := by
  obtain ⟨stw, machine, st₁, used, st₂, remain, used₁, load, hs, hm, hu, he,
    hty, hwl, hmach, hused, hrem, hload, _⟩ := constructNode_ok_inv h
  have hnodup := parseResourceInfo_ok_nodup hm
  rw [hload]
  apply estimateNodeLoad_bounds he
  intro k vm vu hkm hk hlu
  refine H k vm vu hk ?_ ?_
  · rw [hmach]
    exact odLookup_eq_of_mem hnodup hkm
  · rw [hused]
    exact hlu

/-- **C5** witness: the amended theorem applied to the concrete node
`nodeCpuOnline`, whose load estimate is 0. -/
theorem c5_witness :
    0 ≤ nodeCpuOnline.load_estimate ∧ nodeCpuOnline.load_estimate ≤ 1 := by
  apply c5_load_bounds
    (show constructNode "cpu01" rawCpuOnline false = .ok nodeCpuOnline by decide)
  intro k vm vu hk hm hu
  fin_cases hk
  · rw [show odLookup nodeCpuOnline.rsrc_machine "cpu_cores" = some (Val.i 4)
      from by decide] at hm
    rw [show odLookup nodeCpuOnline.rsrc_used "cpu_cores" = some (Val.i 0)
      from by decide] at hu
    injection hm with hm
    injection hu with hu
    injection hm with hm
    injection hu with hu
    omega
  · rw [show odLookup nodeCpuOnline.rsrc_machine "gpu_boards" = some (Val.i 0)
      from by decide] at hm
    rw [show odLookup nodeCpuOnline.rsrc_used "gpu_boards" = some (Val.i 0)
      from by decide] at hu
    injection hm with hm
    injection hu with hu
    injection hm with hm
    injection hu with hu
    omega
  · rw [show odLookup nodeCpuOnline.rsrc_machine "memory_gb" = some (Val.i 8)
      from by decide] at hm
    rw [show odLookup nodeCpuOnline.rsrc_used "memory_gb" = some (Val.i 0)
      from by decide] at hu
    injection hm with hm
    injection hu with hu
    injection hm with hm
    injection hu with hu
    omega

/-- **C10** (confirmed).  A raw inventory record whose machine record has
all three numeric dimensions equal to zero never constructs a node: the
load-estimation step has an empty ratio list and
`sum(load_values)/len(load_values)` raises `ZeroDivisionError`.  In
particular, the record with an empty `resources_available` map (all three
dimensions defaulted to 0) fails with exactly that error. -/
theorem c10_all_zero_machine_fails :
    (∀ (name : String) (raw : RawNode) (smt : Bool) (machine : RecMap)
       (st₁ : SideState),
       parseResourceInfo name ⟨none, none, none⟩ raw.resources_available true smt
         = .ok (machine, st₁) →
       (∀ k ∈ considerKeys, odLookup machine k = some (.i 0)) →
       ∀ node, constructNode name raw smt ≠ .ok node) ∧
    constructNode "node01" rawEmptyResources false = .error .zeroDivisionError := by
  constructor
  · intro name raw smt machine st₁ hm hz node h
    obtain ⟨stw, machine', st₁', used, st₂, remain, used₁, load, hs, hm', hu, he,
      _, _, _, _, _, _, _⟩ := constructNode_ok_inv h
    rw [hm] at hm'
    simp only [Except.ok.injEq, Prod.mk.injEq] at hm'
    rw [← hm'.1] at he
    refine estimateNodeLoad_all_zero ?_ _ he
    intro k v hkv hk
    have hnodup := parseResourceInfo_ok_nodup hm
    have hlv := odLookup_eq_of_mem hnodup hkv
    rw [hz k hk] at hlv
    exact (Option.some.injEq .. |>.mp hlv).symm
  · decide

/-- **C10** witness: the universal part applied to the empty-resources
record. -/
theorem c10_witness :
    constructNode "node01" rawEmptyResources false ≠ Except.ok nodeCpuOnline :=
  c10_all_zero_machine_fails.1 "node01" rawEmptyResources false
    [("cpu_cores", .i 0), ("gpu_boards", .i 0), ("memory_gb", .i 0)] st₀
    (by decide) (by decide) nodeCpuOnline

/-- **C7** (amended).  For every input resource map, when the parser is
invoked without the minimal-set defaulting — the used/assigned resource set
— the returned record's keys are in lexicographic order.  (For the machine
set, keys absent from the input are appended after the sorted keys, which
can break the order: see the counterexample.) -/
theorem c7_no_default_keys_sorted {selfId : String} {st : SideState}
    {info : List (String × Val)} {smt : Bool} {rec : RecMap} {st' : SideState}
    (h : parseResourceInfo selfId st info false smt = .ok (rec, st')) :
    lexSorted rec := by
  unfold parseResourceInfo at h
  rcases bindOk h with ⟨⟨pairs, stp⟩, hitems, h⟩
  simp only [Bool.false_eq_true, if_false, Except.ok.injEq, Prod.mk.injEq] at h
  rw [← h.1]
  exact odOfPairs_keys_sorted (sortPairs_sorted pairs)

/-- **C7** witness: the amended theorem applied to a concrete raw map. -/
theorem c7_witness : lexSorted [("cpu_cores", .i 2), ("memory_gb", .i 4)] :=
  c7_no_default_keys_sorted
    (show parseResourceInfo "node03" st₀ [("mem", .s "4gb"), ("ncpus", .s "2")]
        false false = .ok ([("cpu_cores", .i 2), ("memory_gb", .i 4)], st₀)
      by decide)

/-- **C8** (confirmed).  For every unit token of the `MemoryUnit`
vocabulary and every non-negative integer `V`, normalizing the memory
expression formed by the decimal digits of `V` immediately followed by the
token yields `V / 1024 ^ exponent(unit)` gibibytes, subjected to the
selected rounding mode: banker's rounding to an integer in blunt mode,
to two decimal places in precise mode. -/
theorem c8_unit_normalizer_roundtrip (V : Nat) (u : String) (hu : u ∈ unitTokens) (blunt : Bool) :
    normMemToGibi (decimalRepr V ++ u.data) blunt =
      .ok (if blunt then ((pyRound ((V : ℚ) / 1024 ^ tokenExponent u) : ℤ) : ℚ)
           else roundTo2 ((V : ℚ) / 1024 ^ tokenExponent u)) := by
  simp only [unitTokens] at hu
  fin_cases hu
  · exact normMemToGibi_repr_unit V blunt "byte" 'b' "yte".data ['b'] 3
      (by decide) (by decide) (by decide) (by decide) (by decide)
  · exact normMemToGibi_repr_unit V blunt "b" 'b' ([] : List Char) ['b'] 3
      (by decide) (by decide) (by decide) (by decide) (by decide)
  · exact normMemToGibi_repr_unit V blunt "kilobyte" 'k' "ilobyte".data ['k'] 2
      (by decide) (by decide) (by decide) (by decide) (by decide)
  · exact normMemToGibi_repr_unit V blunt "kilo" 'k' "ilo".data ['k'] 2
      (by decide) (by decide) (by decide) (by decide) (by decide)
  · exact normMemToGibi_repr_unit V blunt "kibi" 'k' "ibi".data ['k'] 2
      (by decide) (by decide) (by decide) (by decide) (by decide)
  · exact normMemToGibi_repr_unit V blunt "kib" 'k' "ib".data ['k'] 2
      (by decide) (by decide) (by decide) (by decide) (by decide)
  · exact normMemToGibi_repr_unit V blunt "kb" 'k' "b".data ['k', 'b'] 2
      (by decide) (by decide) (by decide) (by decide) (by decide)
  · exact normMemToGibi_repr_unit V blunt "k" 'k' ([] : List Char) ['k'] 2
      (by decide) (by decide) (by decide) (by decide) (by decide)
  · exact normMemToGibi_repr_unit V blunt "megabyte" 'm' "egabyte".data ['m'] 1
      (by decide) (by decide) (by decide) (by decide) (by decide)
  · exact normMemToGibi_repr_unit V blunt "mega" 'm' "ega".data ['m'] 1
      (by decide) (by decide) (by decide) (by decide) (by decide)
  · exact normMemToGibi_repr_unit V blunt "mebi" 'm' "ebi".data ['m'] 1
      (by decide) (by decide) (by decide) (by decide) (by decide)
  · exact normMemToGibi_repr_unit V blunt "mb" 'm' "b".data ['m', 'b'] 1
      (by decide) (by decide) (by decide) (by decide) (by decide)
  · exact normMemToGibi_repr_unit V blunt "m" 'm' ([] : List Char) ['m'] 1
      (by decide) (by decide) (by decide) (by decide) (by decide)
  · exact normMemToGibi_repr_unit V blunt "gigabyte" 'g' "igabyte".data ['g'] 0
      (by decide) (by decide) (by decide) (by decide) (by decide)
  · exact normMemToGibi_repr_unit V blunt "giga" 'g' "iga".data ['g'] 0
      (by decide) (by decide) (by decide) (by decide) (by decide)
  · exact normMemToGibi_repr_unit V blunt "gibi" 'g' "ibi".data ['g'] 0
      (by decide) (by decide) (by decide) (by decide) (by decide)
  · exact normMemToGibi_repr_unit V blunt "gib" 'g' "ib".data ['g'] 0
      (by decide) (by decide) (by decide) (by decide) (by decide)
  · exact normMemToGibi_repr_unit V blunt "gb" 'g' "b".data ['g', 'b'] 0
      (by decide) (by decide) (by decide) (by decide) (by decide)
  · exact normMemToGibi_repr_unit V blunt "g" 'g' ([] : List Char) ['g'] 0
      (by decide) (by decide) (by decide) (by decide) (by decide)

/-- **C8** witness: blunt normalization of `"10240m"` yields 10. -/
theorem c8_witness : normMemToGibi "10240m".data true = Except.ok 10 := by
  have h := c8_unit_normalizer_roundtrip 10240 "m" (by decide) true
  rw [show decimalRepr 10240 ++ "m".data = "10240m".data from by decide] at h
  rw [h]
  decide

end ClusterInfo
